import Mathlib

/-!
Verification of the PTY-backed interactive overlay engine of
`run-interactive-term.ts` (package `coding-agent`).

The development shallowly embeds:

* the string helpers used by capture post-processing (trailing-whitespace
  trimming, blank-line stripping, tail truncation by line/byte budget);
* the terminal buffer adapter (`@xterm/headless` is an external library, so
  its observable behaviour is modelled from the spec: an asynchronous write
  queue feeding a grid of lines, with `flush` as the parse barrier);
* the ANSI row renderer `renderBufferLineAnsi` / `cellStyleKey` / `cellSgr`;
* the session orchestrator of `RunInteractiveTermTool.execute`: the
  `finished` guard, `finish`, `killPty`, the `onData`/`onExit` wiring, the
  timeout timer, the abort-signal listener, the input routing of
  `InteractiveTermOverlayComponent.handleInput`, and the spawn-failure path.

The orchestrator is embedded as a step function over an explicit session
state, driven by the discrete event-loop tasks of the source (PTY data, PTY
exit, timer fire, abort signal, keystroke, and one parse step of the xterm
write queue).
-/

namespace OhMyPi

/-! ## String helpers -/

/-- UTF-8 byte length of a string (model of JS `Buffer.byteLength`). -/
def byteLen (s : String) : Nat :=
  (s.data.map Char.utf8Size).sum

/-- Number of newline characters in a string. -/
def countNl (s : String) : Nat :=
  s.data.count '\n'

/-- Number of lines a string splits into on newlines. -/
def lineCount (s : String) : Nat :=
  countNl s + 1

/-- A run of `n` spaces (model of JS `" ".repeat(n)`). -/
def spaces (n : Nat) : String :=
  String.mk (List.replicate n ' ')

/-- Strip trailing whitespace from a line (model of `replace(/\s+$/u, "")`). -/
def rtrim (s : String) : String :=
  String.mk ((s.data.reverse.dropWhile Char.isWhitespace).reverse)

/-- A line is blank when it holds only whitespace (model of
`line.trim().length === 0`). -/
def blankLine (s : String) : Bool :=
  s.data.all Char.isWhitespace

/-- Strip leading and trailing blank lines from a line list: the
`while … shift()` / `while … pop()` loops of `getScrollback` and
`#getPlainLines`. -/
def trimBlankEnds (ls : List String) : List String :=
  ((ls.dropWhile (blankLine ·)).reverse.dropWhile (blankLine ·)).reverse

/-- Last `n` elements of a list. -/
def takeLast {α : Type} (n : Nat) (l : List α) : List α :=
  l.drop (l.length - n)

/-- Digits of a natural number, most significant first; the fuel argument
only bounds the recursion depth (any fuel above the digit count gives the
full decimal form). -/
def natDecCore : Nat → Nat → List Char
  | 0, _ => []
  | fuel + 1, n =>
    if n < 10 then [Char.ofNat (48 + n)]
    else natDecCore fuel (n / 10) ++ [Char.ofNat (48 + n % 10)]

/-- Decimal rendering of a natural number (model of JS number→string
interpolation). -/
def natDec (n : Nat) : String :=
  String.mk (natDecCore (n + 1) n)

/-- Collect characters from a reversed character list while the running
UTF-8 byte budget allows. -/
def takeBytesRev : List Char → Nat → List Char
  | [], _ => []
  | c :: rest, b => if c.utf8Size ≤ b then c :: takeBytesRev rest (b - c.utf8Size) else []

/-- Longest suffix of a string whose UTF-8 size fits within `maxBytes`. -/
def byteSuffix (s : String) (maxBytes : Nat) : String :=
  String.mk ((takeBytesRev s.data.reverse maxBytes).reverse)

/-- Collect characters from a reversed character list, allowing at most `k`
newline characters. -/
def takeLinesRev : List Char → Nat → List Char
  | [], _ => []
  | c :: rest, k =>
    if c = '\n' then (if k = 0 then [] else c :: takeLinesRev rest (k - 1))
    else c :: takeLinesRev rest k

/-- Keep at most the last `maxLines` lines of a string. -/
def keepLastLines (s : String) (maxLines : Nat) : String :=
  if maxLines = 0 then "" else String.mk ((takeLinesRev s.data.reverse (maxLines - 1)).reverse)

/-- Modelled from the spec: `truncateTail` of the missing `tools/truncate.ts`
with only a byte budget — tail-truncation keeping the most recent output
within `maxBytes`. -/
def truncateTailBytes (s : String) (maxBytes : Nat) : String :=
  byteSuffix s maxBytes

/-- Modelled from the spec: `truncateTail` of the missing `tools/truncate.ts`
with both a line and a byte budget — keeps at most the last `maxLines` lines,
then at most the last `maxBytes` bytes. -/
def truncateTailLinesBytes (s : String) (maxLines maxBytes : Nat) : String :=
  byteSuffix (keepLastLines s maxLines) maxBytes

/-- Modelled from the spec: the default byte budget of the missing
`tools/truncate.ts`; the spec only requires it to be larger than the 40KB
snapshot budget. -/
def DEFAULT_MAX_BYTES : Nat := 64 * 1024

def MAX_TIMEOUT_SECONDS : Nat := 3600
def SCROLLBACK_MAX_LINES : Nat := 2000
def SCREEN_SNAPSHOT_MAX_LINES : Nat := 200
def SCREEN_SNAPSHOT_MAX_BYTES : Nat := 40 * 1024
def CAPTURE_MAX_BYTES : Nat := DEFAULT_MAX_BYTES

/-! ## Terminal buffer model

`@xterm/headless` is an external collaborator; its observable interface is
modelled from the spec (§3 TerminalBuffer, §4.2): a grid of produced lines
(`hist` plus the current cursor line `cur`), a viewport of `rows` lines, a
scrollback bounded by `cap` rows, and an asynchronous write path — writes
are queued and only a parse step makes them queryable. -/

structure TermBuf where
  rows : Nat
  cap : Nat
  hist : List String
  cur : String
deriving Repr, DecidableEq

/-- Feed one character into the grid: newline completes the current line. -/
def feedChar (b : TermBuf) (c : Char) : TermBuf :=
  if c = '\n' then { b with hist := b.hist ++ [b.cur], cur := "" }
  else { b with cur := b.cur.push c }

/-- Parse a full chunk into the grid. -/
def feedStr (b : TermBuf) (s : String) : TermBuf :=
  s.data.foldl feedChar b

/-- All lines ever produced, the cursor line included. -/
def producedLines (b : TermBuf) : List String :=
  b.hist ++ [b.cur]

/-- Lines retained by the buffer: produced lines padded up to the viewport
height, the oldest dropped beyond the scrollback bound. `buf.baseY +
term.rows` rows are retained. -/
def bufLines (b : TermBuf) : List String :=
  takeLast (b.cap + b.rows) (producedLines b ++ List.replicate (b.rows - (producedLines b).length) "")

/-- `buf.baseY + term.rows`: the number of retained buffer lines. -/
def totalLines (b : TermBuf) : Nat :=
  (bufLines b).length

structure ScrollbackCapture where
  text : String
  truncated : Bool
deriving Repr, DecidableEq

/-- `InteractiveTermOverlayComponent.getScrollback`: read the last `maxLines`
retained lines, trim trailing whitespace per line, strip blank lines at both
ends, join; truncated iff more lines were retained than the cap. -/
def getScrollback (b : TermBuf) (maxLines : Nat) : ScrollbackCapture :=
  { text := String.intercalate "\n"
      (trimBlankEnds (((bufLines b).drop (totalLines b - maxLines)).map rtrim)),
    truncated := decide (maxLines < totalLines b) }

/-- `InteractiveTermOverlayComponent.#getPlainLines`: the most recent
`maxLines` lines ending at the last rendered row, trimmed the same way, then
`slice(-maxLines)`. -/
def getPlainLines (b : TermBuf) (maxLines : Nat) : List String :=
  if maxLines = 0 then []
  else takeLast maxLines
    (trimBlankEnds (((bufLines b).drop (totalLines b - maxLines)).map rtrim))

/-- `InteractiveTermOverlayComponent.getSnapshot`. -/
def getSnapshot (b : TermBuf) (maxLines : Nat) : String :=
  String.intercalate "\n" (getPlainLines b maxLines)

/-! ## ANSI row renderer

The xterm buffer cell is duck-typed in the source; per spec §9 it is a fixed
`Cell` capability contract (display width, characters, style predicates,
color-mode/value accessors), embedded here as a structure. -/

structure Cell where
  width : Nat
  chars : String
  attrDefault : Bool
  fgColorMode : Nat
  bgColorMode : Nat
  fgColor : Nat
  bgColor : Nat
  bold : Bool
  dim : Bool
  italic : Bool
  underline : Bool
  inverse : Bool
  strikethrough : Bool
  blink : Bool
  invisible : Bool
  fgRGB : Bool
  fgPalette : Bool
  bgRGB : Bool
  bgPalette : Bool
deriving Repr, DecidableEq

def boolDigit (b : Bool) : String :=
  if b then "1" else "0"

/-- `cellStyleKey`: collapse a cell with default attributes to the key `"d"`,
otherwise a key of fg/bg color modes and values plus the six style flags. -/
def cellStyleKey (c : Cell) : String :=
  if c.attrDefault then "d"
  else
    natDec c.fgColorMode ++ ":" ++ natDec c.fgColor ++ ":" ++
    natDec c.bgColorMode ++ ":" ++ natDec c.bgColor ++ ":" ++
    boolDigit c.bold ++ boolDigit c.dim ++ boolDigit c.italic ++
    boolDigit c.underline ++ boolDigit c.inverse ++ boolDigit c.strikethrough

/-- `cellSgr`: the SGR escape sequence selecting a cell's style. -/
def cellSgr (c : Cell) : String :=
  if c.attrDefault then "\x1b[0m"
  else
    let codes : List String :=
      ["0"] ++
      (if c.bold then ["1"] else []) ++
      (if c.dim then ["2"] else []) ++
      (if c.italic then ["3"] else []) ++
      (if c.underline then ["4"] else []) ++
      (if c.blink then ["5"] else []) ++
      (if c.inverse then ["7"] else []) ++
      (if c.strikethrough then ["9"] else []) ++
      (if c.fgRGB then
        ["38;2;" ++ natDec ((c.fgColor >>> 16) &&& 255) ++ ";" ++
          natDec ((c.fgColor >>> 8) &&& 255) ++ ";" ++ natDec (c.fgColor &&& 255)]
      else if c.fgPalette then ["38;5;" ++ natDec c.fgColor] else []) ++
      (if c.bgRGB then
        ["48;2;" ++ natDec ((c.bgColor >>> 16) &&& 255) ++ ";" ++
          natDec ((c.bgColor >>> 8) &&& 255) ++ ";" ++ natDec (c.bgColor &&& 255)]
      else if c.bgPalette then ["48;5;" ++ natDec c.bgColor] else [])
    "\x1b[" ++ String.intercalate ";" codes ++ "m"

/-- Characters a cell contributes to the rendered row: empty cells render as
spaces of their width, invisible cells as spaces of their width. -/
def displayChars (c : Cell) : String :=
  let cs := if c.chars = "" then (if 1 < c.width then spaces c.width else " ") else c.chars
  if c.invisible then spaces c.width else cs

/-- `line?.getCell(x, nullCell)`: `none` when the row is absent or `x` is out
of range (the source's `nullCell` is only a scratch buffer). -/
def getCellAt (line : Option (List Cell)) (x : Nat) : Option Cell :=
  line.bind (fun l => l.get? x)

/-- The cell-walking loop of `renderBufferLineAnsi`, from column `x` with the
previous style key `prevKey`. -/
def renderLoop (line : Option (List Cell)) (width x : Nat) (prevKey : String) : String :=
  if _h : x < width then
    match getCellAt line x with
    | none =>
      (if prevKey = "d" then "" else "\x1b[0m") ++ " " ++ renderLoop line width (x + 1) "d"
    | some cell =>
      if cell.width = 0 then renderLoop line width (x + 1) prevKey
      else if width < x + cell.width then
        (if prevKey = "d" then "" else "\x1b[0m") ++ " " ++ renderLoop line width (x + 1) "d"
      else
        (if cellStyleKey cell = prevKey then "" else cellSgr cell) ++
        displayChars cell ++ renderLoop line width (x + cell.width) (cellStyleKey cell)
  else ""
termination_by width - x
decreasing_by
  all_goals omega

/-- `renderBufferLineAnsi`: leading reset, the cell walk, terminating reset. -/
def renderBufferLineAnsi (line : Option (List Cell)) (width : Nat) : String :=
  "\x1b[0m" ++ renderLoop line width 0 "d" ++ "\x1b[0m"

/-! ## Session orchestrator

The closure state of `RunInteractiveTermTool.execute`'s `context.ui.custom`
callback, and the event-loop tasks that mutate it. The runtime is
single-threaded and cooperative (spec §5), so the whole session is a step
function over discrete events; the xterm write queue is part of the state,
and one `Event.parseStep` makes its oldest entry queryable (a `flush`
callback is the queue entry enqueued by `component.flush`, carrying the
values the `onExit` closure captured). -/

inductive OverlayState
  | running
  | complete
  | timed_out
  | killed
deriving Repr, DecidableEq

/-- The result record built by the `onExit` flush callback
(`InteractiveTermExecutionResult` in the source). -/
structure InteractiveTermExecutionResult where
  exitCode : Option Int
  scrollback : String
  screenSnapshot : String
  timedOut : Bool
  dismissedByUser : Bool
  scrollbackTruncated : Bool
  abortedBySignal : Bool
deriving Repr, DecidableEq

/-- An entry of the xterm write queue: a data chunk from `appendOutput`, or
the empty write enqueued by `flush` whose callback captures the final state
(closing over the `exitCode` and `abortedBySignal` computed in `onExit`). -/
inductive WriteEntry
  | data (chunk : String)
  | flushCapture (exitCode : Option Int) (abortedBySignal : Bool)
deriving Repr, DecidableEq

structure SessionState where
  finished : Bool
  dismissedByUser : Bool
  timedOut : Bool
  pty : Bool
  signalAborted : Bool
  abortHandled : Bool
  overlayState : OverlayState
  overlayExitCode : Option Int
  buf : TermBuf
  writeQueue : List WriteEntry
  listenersActive : Bool
  timerActive : Bool
  results : List InteractiveTermExecutionResult
  disposeRuns : Nat
  ptyInput : String
  kills : List String
deriving Repr, DecidableEq

/-- Modelled from the spec: `matchesKey(data, "escape") || matchesKey(data,
"esc")` of the external `pi-tui`; the escape keypress is the ESC byte. -/
def isEscapeKey (d : String) : Bool :=
  d = "\x1b"

/-- `InteractiveTermOverlayComponent.setComplete`. -/
def setComplete (s : SessionState) (ec : Option Int) (t d : Bool) : SessionState :=
  { s with overlayExitCode := ec,
           overlayState := if t then .timed_out else if d then .killed else .complete }

/-- The `finish` closure: idempotence guard, dispose all disposables
(the PTY data/exit subscriptions, the timeout timer, the abort listener),
then `done(result)`. -/
def finish (s : SessionState) (r : InteractiveTermExecutionResult) : SessionState :=
  if s.finished then s
  else { s with finished := true, listenersActive := false, timerActive := false,
                disposeRuns := s.disposeRuns + 1, results := s.results ++ [r] }

/-- The `killPty` closure: no-op once the handle is cleared, else kill and
clear it. -/
def killPty (s : SessionState) (sig : String) : SessionState :=
  if s.pty then { s with pty := false, kills := s.kills ++ [sig] } else s

/-- `component.appendOutput`: queue a chunk on the xterm write path. -/
def appendOutput (s : SessionState) (chunk : String) : SessionState :=
  { s with writeQueue := s.writeQueue ++ [WriteEntry.data chunk] }

/-- A discrete event-loop task: a PTY data chunk, the PTY exit notification
(`exitCode` absent models a signal-killed child), the timeout timer firing,
the external abort signal firing, a keystroke delivered to the overlay, or
one xterm parse step. -/
inductive Event
  | ptyData (chunk : String)
  | ptyExit (code : Option Int)
  | timerFire
  | abortFire
  | key (data : String)
  | parseStep
deriving Repr, DecidableEq

/-- The capture-and-finish body of the `onExit` flush callback. -/
def captureFinish (s : SessionState) (ec : Option Int) (ab : Bool) : SessionState :=
  if s.finished then s
  else
    let snapshot := truncateTailLinesBytes (getSnapshot s.buf SCREEN_SNAPSHOT_MAX_LINES)
      SCREEN_SNAPSHOT_MAX_LINES SCREEN_SNAPSHOT_MAX_BYTES
    let sb := getScrollback s.buf SCROLLBACK_MAX_LINES
    finish s
      { exitCode := ec,
        scrollback := truncateTailBytes sb.text CAPTURE_MAX_BYTES,
        screenSnapshot := snapshot,
        timedOut := s.timedOut,
        dismissedByUser := s.dismissedByUser,
        scrollbackTruncated := sb.truncated,
        abortedBySignal := ab }

/-- One event-loop task, mirroring the handlers wired in `execute`:
`pty.onData`, `pty.onExit`, the timeout timer, the abort listener,
`component.handleInput` with the `setInputHandlers` closures, and one step of
the xterm write queue. -/
def step (s : SessionState) (e : Event) : SessionState :=
  match e with
  | .ptyData chunk =>
    if s.listenersActive then appendOutput s chunk else s
  | .ptyExit code =>
    if s.listenersActive then
      let ec := if s.timedOut then none else code
      let ab := s.signalAborted && !s.dismissedByUser && !s.timedOut
      let s := setComplete s ec s.timedOut s.dismissedByUser
      { s with writeQueue := s.writeQueue ++ [WriteEntry.flushCapture ec ab] }
    else s
  | .timerFire =>
    if s.timerActive then
      let s := { s with timerActive := false }
      if s.finished then s
      else killPty { s with timedOut := true } "SIGKILL"
    else s
  | .abortFire =>
    let s := { s with signalAborted := true }
    if s.listenersActive && !s.abortHandled then
      let s := { s with abortHandled := true }
      if s.finished then s else killPty s "SIGKILL"
    else s
  | .key d =>
    if s.overlayState = OverlayState.running && isEscapeKey d then
      if s.dismissedByUser then s
      else killPty { s with dismissedByUser := true } "SIGKILL"
    else if s.overlayState ≠ OverlayState.running then s
    else if s.pty then { s with ptyInput := s.ptyInput ++ d }
    else s
  | .parseStep =>
    match s.writeQueue with
    | [] => s
    | WriteEntry.data c :: rest => { s with buf := feedStr s.buf c, writeQueue := rest }
    | WriteEntry.flushCapture ec ab :: rest => captureFinish { s with writeQueue := rest } ec ab

/-- Run a list of event-loop tasks in order. -/
def run (s : SessionState) (evs : List Event) : SessionState :=
  evs.foldl step s

/-- Apply `n` parse steps (drain up to `n` entries of the write queue). -/
def drainN : Nat → SessionState → SessionState
  | 0, s => s
  | n + 1, s => drainN n (step s Event.parseStep)

/-- The closure state right after the component is constructed, before
`spawnPty` is attempted: no PTY handle, no disposables, no timer. -/
def preSpawnState (rows : Nat) : SessionState :=
  { finished := false, dismissedByUser := false, timedOut := false, pty := false,
    signalAborted := false, abortHandled := false,
    overlayState := OverlayState.running, overlayExitCode := none,
    buf := { rows := rows, cap := 2000, hist := [], cur := "" },
    writeQueue := [], listenersActive := false, timerActive := false,
    results := [], disposeRuns := 0, ptyInput := "", kills := [] }

/-- The closure state after a successful `spawnPty` and handler wiring:
PTY live, data/exit/input listeners wired, timer armed when a timeout was
requested. -/
def initState (rows : Nat) (hasTimer : Bool) : SessionState :=
  { preSpawnState rows with pty := true, listenersActive := true, timerActive := hasTimer }

def spawnFailMessage (msg : String) : String :=
  "Failed to spawn PTY: " ++ msg

/-- The `catch` branch of the `spawnPty` try/catch: finish immediately with
the synthetic result, append the failure message to the overlay, mark the
overlay complete. -/
def spawnFailRun (rows : Nat) (msg : String) : SessionState :=
  let r : InteractiveTermExecutionResult :=
    { exitCode := none, scrollback := spawnFailMessage msg, screenSnapshot := "",
      timedOut := false, dismissedByUser := false, scrollbackTruncated := false,
      abortedBySignal := false }
  let s1 := finish (preSpawnState rows) r
  let s2 := appendOutput s1 ("\n" ++ spawnFailMessage msg ++ "\n")
  setComplete s2 none false false

/-- What `execute` does with the emitted result after the overlay closes:
`abortedBySignal` surfaces as a `ToolAbortError`, everything else returns
normally. -/
inductive ToolOutcome
  | ok (r : InteractiveTermExecutionResult)
  | aborted
deriving Repr, DecidableEq

def executeOutcome (r : InteractiveTermExecutionResult) : ToolOutcome :=
  if r.abortedBySignal then ToolOutcome.aborted else ToolOutcome.ok r

/-- Concatenation of a list of strings (used to state renderer results). -/
def concatStrs : List String → String
  | [] => ""
  | a :: l => a ++ concatStrs l

/-- Invariant for C1: the result list and dispose count track the `finished`
guard exactly. -/
def FinishInv (s : SessionState) : Prop :=
  (s.finished = false → s.results = [] ∧ s.disposeRuns = 0) ∧
  (s.finished = true → s.results.length = 1 ∧ s.disposeRuns = 1)

/-- Invariant for C5: with the abort signal never fired, no queued flush
callback and no emitted result carries the aborted flag. -/
def NoAbortInv (s : SessionState) : Prop :=
  s.signalAborted = false ∧
  (∀ ec ab, WriteEntry.flushCapture ec ab ∈ s.writeQueue → ab = false) ∧
  (∀ r ∈ s.results, r.abortedBySignal = false)

/-- A default-attribute cell of display width 0 (a combining character
slot), used as a concrete renderer input. -/
def zeroWidthCellEx : Cell :=
  { width := 0, chars := "", attrDefault := true, fgColorMode := 0, bgColorMode := 0,
    fgColor := 0, bgColor := 0, bold := false, dim := false, italic := false,
    underline := false, inverse := false, strikethrough := false, blink := false,
    invisible := false, fgRGB := false, fgPalette := false, bgRGB := false,
    bgPalette := false }

/-- A default-attribute wide cell (display width 2), used as a concrete
renderer input. -/
def wideCellEx : Cell :=
  { zeroWidthCellEx with width := 2, chars := "ab" }

/-- A bold palette-colored width-1 cell, used as a concrete renderer
input. -/
def styledCellEx : Cell :=
  { zeroWidthCellEx with
    width := 1, chars := "a", attrDefault := false, fgColorMode := 1, fgColor := 2,
    bold := true, fgPalette := true }

/-! ## Helper lemmas: lists and strings -/

theorem takeLast_of_le {α : Type} {n : Nat} {l : List α} (h : l.length ≤ n) :
    takeLast n l = l := by
  simp [takeLast, Nat.sub_eq_zero_of_le h]

theorem takeLast_length {α : Type} (n : Nat) (l : List α) :
    (takeLast n l).length = min n l.length := by
  simp [takeLast]
  omega

theorem dropWhile_head_false {α : Type} {p : α → Bool} :
    ∀ {l : List α} {x : α}, (l.dropWhile p).head? = some x → p x = false := by
  intro l
  induction l with
  | nil => intro x h; simp [List.dropWhile] at h
  | cons a t ih =>
    intro x h
    by_cases ha : p a
    · rw [List.dropWhile_cons_of_pos ha] at h
      exact ih h
    · rw [List.dropWhile_cons_of_neg ha] at h
      simp at h
      subst h
      simpa using ha

theorem dropWhile_dropWhile {α : Type} (p : α → Bool) (l : List α) :
    (l.dropWhile p).dropWhile p = l.dropWhile p := by
  induction l with
  | nil => simp
  | cons a t ih =>
    by_cases ha : p a
    · rw [List.dropWhile_cons_of_pos ha]; exact ih
    · rw [List.dropWhile_cons_of_neg ha, List.dropWhile_cons_of_neg ha]

theorem trimBlankEnds_sublist (ls : List String) :
    List.Sublist (trimBlankEnds ls) ls := by
  unfold trimBlankEnds
  have h1 : List.Sublist ((ls.dropWhile (blankLine ·)).reverse.dropWhile (blankLine ·))
      (ls.dropWhile (blankLine ·)).reverse := List.dropWhile_sublist _
  have h2 := h1.reverse
  simp at h2
  exact h2.trans (List.dropWhile_sublist _)

theorem trimBlankEnds_head {ls : List String} {x : String}
    (h : (trimBlankEnds ls).head? = some x) : blankLine x = false := by
  unfold trimBlankEnds at h
  set mid := ls.dropWhile (blankLine ·) with hmid
  -- the trimmed list is a prefix of `mid`, so its head is `mid`'s head
  have hpre : (mid.reverse.dropWhile (blankLine ·)).reverse <+: mid := by
    have hsuf : mid.reverse.dropWhile (blankLine ·) <:+ mid.reverse :=
      List.dropWhile_suffix _
    have := hsuf.reverse
    simpa using this
  obtain ⟨r, hr⟩ := hpre
  have hmidhead : mid.head? = some x := by
    rcases hd : (mid.reverse.dropWhile (blankLine ·)).reverse with _ | ⟨y, t⟩
    · rw [hd] at h; simp at h
    · rw [hd] at h
      simp at h
      subst h
      rw [hd] at hr
      rw [← hr]
      simp
  exact dropWhile_head_false (hmid ▸ hmidhead)

theorem trimBlankEnds_last {ls : List String} {x : String}
    (h : (trimBlankEnds ls).getLast? = some x) : blankLine x = false := by
  unfold trimBlankEnds at h
  rw [List.getLast?_reverse] at h
  exact dropWhile_head_false h

theorem rtrim_idem (s : String) : rtrim (rtrim s) = rtrim s := by
  simp [rtrim, dropWhile_dropWhile]

theorem rtrim_empty : rtrim "" = "" := rfl

theorem blankLine_empty : blankLine "" = true := rfl

theorem blankLine_false_of_rtrim {w : String} (hr : rtrim w = w) (hne : w ≠ "") :
    blankLine w = false := by
  by_contra h
  have hb : blankLine w = true := by
    cases hbl : blankLine w
    · exact absurd hbl h
    · rfl
  have : rtrim w = "" := by
    simp [blankLine, List.all_eq_true] at hb
    simp only [rtrim]
    have hnil : List.dropWhile Char.isWhitespace w.data.reverse = [] := by
      rw [List.dropWhile_eq_nil_iff]
      intro c hc
      exact hb c (List.mem_reverse.mp hc)
    rw [hnil]
    rfl
  rw [hr] at this
  exact hne this

theorem dropBlank_replicate (n : Nat) (l : List String) :
    List.dropWhile (blankLine ·) (List.replicate n "" ++ l) =
      List.dropWhile (blankLine ·) l := by
  induction n with
  | zero => simp
  | succ m ih =>
    rw [List.replicate_succ, List.cons_append, List.dropWhile_cons_of_pos (by simp [blankLine])]
    exact ih

theorem byteLen_takeBytesRev (l : List Char) (b : Nat) :
    ((takeBytesRev l b).map Char.utf8Size).sum ≤ b := by
  induction l generalizing b with
  | nil => simp [takeBytesRev]
  | cons c rest ih =>
    simp only [takeBytesRev]
    split
    · rename_i hle
      simp only [List.map_cons, List.sum_cons]
      have := ih (b - c.utf8Size)
      omega
    · simp

theorem takeBytesRev_sublist (l : List Char) (b : Nat) :
    List.Sublist (takeBytesRev l b) l := by
  induction l generalizing b with
  | nil => simp [takeBytesRev]
  | cons c rest ih =>
    simp only [takeBytesRev]
    split
    · exact List.Sublist.cons₂ c (ih _)
    · exact List.nil_sublist _

theorem takeBytesRev_all {l : List Char} {b : Nat}
    (h : (l.map Char.utf8Size).sum ≤ b) : takeBytesRev l b = l := by
  induction l generalizing b with
  | nil => simp [takeBytesRev]
  | cons c rest ih =>
    simp only [List.map_cons, List.sum_cons] at h
    have hc : c.utf8Size ≤ b := by omega
    simp only [takeBytesRev, if_pos hc]
    rw [ih (by omega)]

theorem byteLen_byteSuffix (s : String) (b : Nat) : byteLen (byteSuffix s b) ≤ b := by
  have := byteLen_takeBytesRev s.data.reverse b
  simp only [byteLen, byteSuffix]
  calc (((takeBytesRev s.data.reverse b).reverse).map Char.utf8Size).sum
      = ((takeBytesRev s.data.reverse b).map Char.utf8Size).sum := by
        rw [List.map_reverse, List.sum_reverse]
    _ ≤ b := this

theorem byteSuffix_of_le {s : String} {b : Nat} (h : byteLen s ≤ b) :
    byteSuffix s b = s := by
  simp only [byteSuffix]
  rw [takeBytesRev_all]
  · rw [List.reverse_reverse]
  · rw [List.map_reverse, List.sum_reverse]
    exact h

theorem countNl_byteSuffix (s : String) (b : Nat) :
    countNl (byteSuffix s b) ≤ countNl s := by
  have h1 := (takeBytesRev_sublist s.data.reverse b).count_le '\n'
  simp only [countNl, byteSuffix]
  rw [List.count_reverse]
  have h3 : List.count '\n' s.data.reverse = List.count '\n' s.data := List.count_reverse _ _
  omega

theorem countNl_takeLinesRev (l : List Char) (k : Nat) :
    (takeLinesRev l k).count '\n' ≤ k := by
  induction l generalizing k with
  | nil => simp [takeLinesRev]
  | cons c rest ih =>
    simp only [takeLinesRev]
    by_cases hc : c = '\n'
    · simp only [if_pos hc]
      by_cases hk : k = 0
      · simp [hk]
      · simp only [if_neg hk]
        rw [List.count_cons]
        have := ih (k - 1)
        simp [hc]
        omega
    · simp only [if_neg hc]
      rw [List.count_cons]
      have := ih k
      simp [hc]
      omega

theorem takeLinesRev_all {l : List Char} {k : Nat} (h : l.count '\n' ≤ k) :
    takeLinesRev l k = l := by
  induction l generalizing k with
  | nil => simp [takeLinesRev]
  | cons c rest ih =>
    rw [List.count_cons] at h
    simp only [takeLinesRev]
    by_cases hc : c = '\n'
    · simp only [if_pos hc]
      have hk : ¬ (k = 0) := by simp [hc] at h; omega
      simp only [if_neg hk]
      rw [ih (by simp [hc] at h; omega)]
    · simp only [if_neg hc]
      rw [ih (by simp [hc] at h; omega)]

theorem countNl_keepLastLines (s : String) (n : Nat) (hn : 1 ≤ n) :
    countNl (keepLastLines s n) ≤ n - 1 := by
  simp only [countNl, keepLastLines]
  rw [if_neg (by omega)]
  simp only [String.data]
  rw [List.count_reverse]
  exact countNl_takeLinesRev _ _

theorem keepLastLines_of_le {s : String} {n : Nat} (hn : 1 ≤ n)
    (h : countNl s ≤ n - 1) : keepLastLines s n = s := by
  simp only [keepLastLines]
  rw [if_neg (by omega), takeLinesRev_all]
  · simp
  · rw [List.count_reverse]
    exact h

theorem intercalate_single (a : String) : String.intercalate "\n" [a] = a := by
  simp [String.intercalate, String.intercalate.go]

/-! ## Helper lemmas: buffer feeding and capture -/

theorem feedChars_no_nl (l : List Char) :
    ∀ (b : TermBuf), '\n' ∉ l →
      List.foldl feedChar b l = { b with cur := String.mk (b.cur.data ++ l) } := by
  induction l with
  | nil =>
    intro b _
    simp
  | cons c rest ih =>
    intro b hnl
    have hc : ¬ (c = '\n') := fun h => hnl (h ▸ List.mem_cons_self c rest)
    have hrest : '\n' ∉ rest := fun h => hnl (List.mem_cons_of_mem c h)
    rw [List.foldl_cons]
    have hfeed : feedChar b c = { b with cur := String.mk (b.cur.data ++ [c]) } := by
      simp [feedChar, hc, String.push]
    rw [hfeed, ih _ hrest]
    simp

theorem feedStr_line (b : TermBuf) (w : String) (hnl : '\n' ∉ w.data) :
    feedStr b (w ++ "\n") =
      { b with hist := b.hist ++ [String.mk (b.cur.data ++ w.data)], cur := "" } := by
  simp only [feedStr]
  have hdata : (w ++ "\n").data = w.data ++ ['\n'] := by
    rw [String.data_append]
  rw [hdata, List.foldl_append, feedChars_no_nl w.data b hnl]
  simp only [List.foldl_cons, List.foldl_nil]
  simp [feedChar]

/-- Capture of a buffer holding exactly one produced line `w` followed by the
empty cursor line: both scrollback and snapshot are `w`. -/
theorem capture_single_line (rows : Nat) (w : String)
    (hne : w ≠ "") (hr : rtrim w = w) (hrows : rows ≤ 200) :
    (getScrollback { rows := rows, cap := 2000, hist := [w], cur := "" }
        SCROLLBACK_MAX_LINES).text = w ∧
    getSnapshot { rows := rows, cap := 2000, hist := [w], cur := "" }
        SCREEN_SNAPSHOT_MAX_LINES = w ∧
    (getScrollback { rows := rows, cap := 2000, hist := [w], cur := "" }
        SCROLLBACK_MAX_LINES).truncated = false := by
  have hblank : blankLine w = false := blankLine_false_of_rtrim hr hne
  set b : TermBuf := { rows := rows, cap := 2000, hist := [w], cur := "" } with hb
  have hprod : producedLines b = [w, ""] := rfl
  have hbuf : bufLines b = [w, ""] ++ List.replicate (rows - 2) "" := by
    simp only [bufLines, hprod]
    apply takeLast_of_le
    simp
    omega
  have htotal : totalLines b = 2 + (rows - 2) := by
    simp [totalLines, hbuf]
    omega
  have htrim : trimBlankEnds (([w, ""] ++ List.replicate (rows - 2) "").map rtrim) = [w] := by
    have hmap : ([w, ""] ++ List.replicate (rows - 2) "").map rtrim =
        [w, ""] ++ List.replicate (rows - 2) "" := by
      simp [hr, rtrim_empty, List.map_replicate]
    rw [hmap]
    unfold trimBlankEnds
    rw [show ([w, ""] ++ List.replicate (rows - 2) "") = w :: ("" :: List.replicate (rows - 2) "") from rfl]
    rw [List.dropWhile_cons_of_neg (by simp [hblank])]
    rw [List.reverse_cons]
    rw [show ("" :: List.replicate (rows - 2) "").reverse = List.replicate (rows - 2) "" ++ [""] by simp [List.replicate]]
    rw [List.append_assoc, dropBlank_replicate]
    rw [List.singleton_append]
    rw [List.dropWhile_cons_of_pos (by simp [blankLine])]
    rw [List.dropWhile_cons_of_neg (by simp [hblank])]
    simp
  constructor
  · simp only [getScrollback, SCROLLBACK_MAX_LINES]
    have hdrop : totalLines b - 2000 = 0 := by omega
    rw [hdrop, hbuf]
    simp only [List.drop_zero]
    rw [htrim, intercalate_single]
  constructor
  · simp only [getSnapshot, getPlainLines, SCREEN_SNAPSHOT_MAX_LINES]
    rw [if_neg (by omega)]
    have hdrop : totalLines b - 200 = 0 := by omega
    rw [hdrop, hbuf]
    simp only [List.drop_zero]
    rw [htrim]
    rw [takeLast_of_le (by simp)]
    rw [intercalate_single]
  · simp only [getScrollback, SCROLLBACK_MAX_LINES]
    simp only [decide_eq_false_iff_not]
    omega

/-! ## Helper lemmas: orchestrator steps -/

/-- Once `finished` is set, no event emits a result, disposes again, or
resets the guard. -/
theorem finished_frozen (s : SessionState) (e : Event) (hf : s.finished = true) :
    (step s e).finished = true ∧ (step s e).results = s.results ∧
      (step s e).disposeRuns = s.disposeRuns := by
  cases e with
  | ptyData c =>
    by_cases hl : s.listenersActive <;> simp [step, appendOutput, hl, hf]
  | ptyExit code =>
    by_cases hl : s.listenersActive <;> simp [step, setComplete, hl, hf]
  | timerFire =>
    by_cases ht : s.timerActive <;> simp [step, killPty, ht, hf]
  | abortFire =>
    by_cases hl : s.listenersActive <;> by_cases ha : s.abortHandled <;>
      simp [step, killPty, hl, ha, hf]
  | key d =>
    by_cases h1 : s.overlayState = OverlayState.running <;>
      by_cases h2 : isEscapeKey d <;>
      by_cases h3 : s.dismissedByUser <;>
      by_cases h4 : s.pty <;>
      simp [step, killPty, h1, h2, h3, h4, hf]
  | parseStep =>
    rcases hq : s.writeQueue with _ | ⟨entry, rest⟩
    · simp [step, hq, hf]
    · cases entry with
      | data c => simp [step, hq, hf]
      | flushCapture ec ab => simp [step, hq, captureFinish, hf]

/-- From an unfinished state, one event either leaves the guard, the result
list and the dispose count alone, or finishes: exactly one result appended
and exactly one dispose pass. -/
theorem step_new_result (s : SessionState) (e : Event) (hf : s.finished = false) :
    ((step s e).finished = false ∧ (step s e).results = s.results ∧
        (step s e).disposeRuns = s.disposeRuns) ∨
      ((step s e).finished = true ∧ ∃ r, (step s e).results = s.results ++ [r] ∧
        (step s e).disposeRuns = s.disposeRuns + 1) := by
  cases e with
  | ptyData c =>
    left
    by_cases hl : s.listenersActive <;> simp [step, appendOutput, hl, hf]
  | ptyExit code =>
    left
    by_cases hl : s.listenersActive <;> simp [step, setComplete, hl, hf]
  | timerFire =>
    left
    by_cases ht : s.timerActive <;> by_cases hp : s.pty <;>
      simp [step, killPty, ht, hp, hf]
  | abortFire =>
    left
    by_cases hl : s.listenersActive <;> by_cases ha : s.abortHandled <;>
      by_cases hp : s.pty <;> simp [step, killPty, hl, ha, hp, hf]
  | key d =>
    left
    by_cases h1 : s.overlayState = OverlayState.running <;>
      by_cases h2 : isEscapeKey d <;>
      by_cases h3 : s.dismissedByUser <;>
      by_cases h4 : s.pty <;>
      simp [step, killPty, h1, h2, h3, h4, hf]
  | parseStep =>
    rcases hq : s.writeQueue with _ | ⟨entry, rest⟩
    · left; simp [step, hq, hf]
    · cases entry with
      | data c => left; simp [step, hq, hf]
      | flushCapture ec ab =>
        right
        simp [step, hq, captureFinish, finish, hf]

theorem finishInv_step (s : SessionState) (e : Event) (h : FinishInv s) :
    FinishInv (step s e) := by
  by_cases hf : s.finished
  · obtain ⟨hf1, hr, hd⟩ := finished_frozen s e hf
    constructor
    · intro hc
      rw [hf1] at hc
      cases hc
    · intro _
      rw [hr, hd]
      exact h.2 hf
  · have hf0 : s.finished = false := by simpa using hf
    obtain ⟨hz, hd0⟩ := h.1 hf0
    rcases step_new_result s e hf0 with ⟨h1, h2, h3⟩ | ⟨h1, r, h2, h3⟩
    · constructor
      · intro _
        rw [h2, h3]
        exact ⟨hz, hd0⟩
      · intro hc
        rw [h1] at hc
        cases hc
    · constructor
      · intro hc
        rw [h1] at hc
        cases hc
      · intro _
        rw [h2, h3, hz, hd0]
        simp

theorem finishInv_run (evs : List Event) :
    ∀ s : SessionState, FinishInv s → FinishInv (run s evs) := by
  induction evs with
  | nil => intro s h; exact h
  | cons e rest ih =>
    intro s h
    exact ih (step s e) (finishInv_step s e h)

theorem finishInv_init (rows : Nat) (hasTimer : Bool) :
    FinishInv (initState rows hasTimer) := by
  constructor
  · intro _
    exact ⟨rfl, rfl⟩
  · intro hc
    simp [initState, preSpawnState] at hc

theorem drainN_add (m n : Nat) : ∀ s : SessionState,
    drainN (m + n) s = drainN n (drainN m s) := by
  induction m with
  | zero => intro s; rw [Nat.zero_add]; rfl
  | succ k ih =>
    intro s
    rw [Nat.succ_add]
    show drainN (k + n) (step s Event.parseStep) = _
    rw [ih]
    rfl

/-- Draining data-only entries at the head of the queue just feeds the
buffer. -/
theorem drain_data (ds : List String) :
    ∀ (s : SessionState) (rest : List WriteEntry),
      s.writeQueue = List.map WriteEntry.data ds ++ rest →
      drainN ds.length s = { s with buf := List.foldl feedStr s.buf ds, writeQueue := rest } := by
  induction ds with
  | nil =>
    intro s rest h
    simp only [List.map_nil, List.nil_append] at h
    simp only [drainN, List.foldl_nil]
    rw [← h]
  | cons d dtail ih =>
    intro s rest h
    simp only [List.map_cons, List.cons_append] at h
    show drainN dtail.length (step s Event.parseStep) = _
    have hstep : step s Event.parseStep =
        { s with buf := feedStr s.buf d, writeQueue := List.map WriteEntry.data dtail ++ rest } := by
      simp [step, h]
    rw [hstep, ih _ rest rfl]
    simp

/-- Processing the flush entry of an unfinished session captures and
finishes. -/
theorem step_parse_capture (s : SessionState) (ec : Option Int) (ab : Bool)
    (hq : s.writeQueue = [WriteEntry.flushCapture ec ab]) (hf : s.finished = false) :
    step s Event.parseStep =
      { s with
        writeQueue := [], finished := true, listenersActive := false,
        timerActive := false, disposeRuns := s.disposeRuns + 1,
        results := s.results ++
          [{ exitCode := ec,
             scrollback := truncateTailBytes (getScrollback s.buf SCROLLBACK_MAX_LINES).text
               CAPTURE_MAX_BYTES,
             screenSnapshot := truncateTailLinesBytes (getSnapshot s.buf SCREEN_SNAPSHOT_MAX_LINES)
               SCREEN_SNAPSHOT_MAX_LINES SCREEN_SNAPSHOT_MAX_BYTES,
             timedOut := s.timedOut,
             dismissedByUser := s.dismissedByUser,
             scrollbackTruncated := (getScrollback s.buf SCROLLBACK_MAX_LINES).truncated,
             abortedBySignal := ab }] } := by
  simp [step, hq, captureFinish, finish, hf]

/-! ## Claim theorems -/

/-- Claim C1: for every session and every set of completion triggers, the
finalize capture-and-teardown sequence executes exactly once: over any event
trace from a freshly spawned session, the result list and the dispose pass
count are empty/zero while `finished` is false and exactly one once it is
true; and once `finished` is true, any further trigger (any event, a pending
flush callback included) emits no result, disposes nothing again, and leaves
the guard set. -/
theorem c1_finalize_exactly_once (rows : Nat) (hasTimer : Bool) (evs : List Event) :
    (((run (initState rows hasTimer) evs).finished = false →
        (run (initState rows hasTimer) evs).results = [] ∧
        (run (initState rows hasTimer) evs).disposeRuns = 0) ∧
      ((run (initState rows hasTimer) evs).finished = true →
        (run (initState rows hasTimer) evs).results.length = 1 ∧
        (run (initState rows hasTimer) evs).disposeRuns = 1)) ∧
    (∀ e : Event, (run (initState rows hasTimer) evs).finished = true →
      (step (run (initState rows hasTimer) evs) e).finished = true ∧
      (step (run (initState rows hasTimer) evs) e).results =
        (run (initState rows hasTimer) evs).results ∧
      (step (run (initState rows hasTimer) evs) e).disposeRuns =
        (run (initState rows hasTimer) evs).disposeRuns) := by
  refine ⟨finishInv_run evs _ (finishInv_init rows hasTimer), ?_⟩
  intro e hf
  exact finished_frozen _ e hf

theorem c1_finalize_exactly_once_witness :
    ((run (initState 24 false) [Event.ptyExit (some 0), Event.parseStep]).results.length = 1 ∧
      (run (initState 24 false) [Event.ptyExit (some 0), Event.parseStep]).disposeRuns = 1) ∧
    (step (run (initState 24 false) [Event.ptyExit (some 0), Event.parseStep])
        Event.timerFire).results =
      (run (initState 24 false) [Event.ptyExit (some 0), Event.parseStep]).results := by
  have h := c1_finalize_exactly_once 24 false [Event.ptyExit (some 0), Event.parseStep]
  exact ⟨h.1.2 (by decide), (h.2 Event.timerFire (by decide)).2.1⟩

/-- Claim C4: a PTY spawn failure is not thrown: the session finalizes at
once with the synthetic result (exit code absent, the native failure message
embedded in the captured scrollback, every flag false), `execute` returns it
as a normal outcome, and the overlay ends in the final non-running
`complete` state. -/
theorem c4_spawn_failure_degrades (rows : Nat) (msg : String) :
    (spawnFailRun rows msg).results =
      [{ exitCode := none, scrollback := spawnFailMessage msg, screenSnapshot := "",
         timedOut := false, dismissedByUser := false, scrollbackTruncated := false,
         abortedBySignal := false }] ∧
    executeOutcome
        { exitCode := none, scrollback := spawnFailMessage msg, screenSnapshot := "",
          timedOut := false, dismissedByUser := false, scrollbackTruncated := false,
          abortedBySignal := false } =
      ToolOutcome.ok
        { exitCode := none, scrollback := spawnFailMessage msg, screenSnapshot := "",
          timedOut := false, dismissedByUser := false, scrollbackTruncated := false,
          abortedBySignal := false } ∧
    (spawnFailRun rows msg).overlayState = OverlayState.complete ∧
    (spawnFailRun rows msg).overlayState ≠ OverlayState.running ∧
    (spawnFailRun rows msg).finished = true := by
  refine ⟨?_, rfl, ?_, ?_, ?_⟩ <;>
    simp [spawnFailRun, finish, preSpawnState, appendOutput, setComplete]

theorem noAbortInv_step (s : SessionState) (e : Event) (he : e ≠ Event.abortFire)
    (h : NoAbortInv s) : NoAbortInv (step s e) := by
  obtain ⟨h1, h2, h3⟩ := h
  cases e with
  | ptyData c =>
    by_cases hl : s.listenersActive <;> simp only [step, appendOutput, hl, if_pos, if_neg]
    · refine ⟨h1, ?_, h3⟩
      intro ec ab hmem
      rcases List.mem_append.mp hmem with hin | hnew
      · exact h2 ec ab hin
      · simp at hnew
    · simp [hl]
      exact ⟨h1, h2, h3⟩
  | ptyExit code =>
    by_cases hl : s.listenersActive
    · simp only [step, hl, if_pos, setComplete]
      refine ⟨h1, ?_, h3⟩
      intro ec ab hmem
      rcases List.mem_append.mp hmem with hin | hnew
      · exact h2 ec ab hin
      · simp at hnew
        rw [hnew.2, h1]
        simp
    · simp only [step, hl]
      simp
      exact ⟨h1, h2, h3⟩
  | timerFire =>
    by_cases ht : s.timerActive <;> by_cases hf : s.finished <;> by_cases hp : s.pty <;>
      simp [step, killPty, ht, hf, hp] <;> exact ⟨h1, h2, h3⟩
  | abortFire => exact absurd rfl he
  | key d =>
    by_cases hc1 : s.overlayState = OverlayState.running <;>
      by_cases hc2 : isEscapeKey d <;>
      by_cases hc3 : s.dismissedByUser <;>
      by_cases hc4 : s.pty <;>
      simp [step, killPty, hc1, hc2, hc3, hc4] <;>
      exact ⟨h1, h2, h3⟩
  | parseStep =>
    rcases hq : s.writeQueue with _ | ⟨entry, rest⟩
    · simpa [step, hq] using ⟨h1, h2, h3⟩
    · have hrest : ∀ ec ab, WriteEntry.flushCapture ec ab ∈ rest → ab = false := by
        intro ec ab hin
        exact h2 ec ab (by rw [hq]; exact List.mem_cons_of_mem _ hin)
      cases entry with
      | data c =>
        simp only [step, hq]
        exact ⟨h1, hrest, h3⟩
      | flushCapture ec ab =>
        have hab : ab = false := h2 ec ab (by rw [hq]; exact List.mem_cons_self _ _)
        by_cases hf : s.finished
        · simp only [step, hq, captureFinish, hf, if_pos]
          exact ⟨h1, hrest, h3⟩
        · have hf0 : s.finished = false := by simpa using hf
          simp only [step, hq, captureFinish, finish, hf0]
          simp
          refine ⟨h1, hrest, ?_⟩
          intro r hr
          rcases List.mem_append.mp hr with hin | hnew
          · exact h3 r hin
          · simp at hnew
            rw [hnew]
            simpa using hab

theorem noAbortInv_run (evs : List Event) (hno : Event.abortFire ∉ evs) :
    ∀ s : SessionState, NoAbortInv s → NoAbortInv (run s evs) := by
  induction evs with
  | nil => intro s h; exact h
  | cons e rest ih =>
    intro s h
    have he : e ≠ Event.abortFire := fun hc => hno (hc ▸ List.mem_cons_self e rest)
    have hrest : Event.abortFire ∉ rest := fun hc => hno (List.mem_cons_of_mem e hc)
    exact ih hrest (step s e) (noAbortInv_step s e he h)

/-- Claim C5: the operation surfaces the distinct cancellation failure iff
the result's `abortedBySignal` flag is set; the `onExit` handler computes
that flag as `signal.aborted && !dismissedByUser && !timedOut`, so it is
false whenever the session had timed out or was dismissed at exit time; and
on any trace in which the abort signal never fires, every emitted result has
the flag false. -/
theorem c5_abort_surfaces_iff_flag :
    (∀ r : InteractiveTermExecutionResult,
      executeOutcome r = ToolOutcome.aborted ↔ r.abortedBySignal = true) ∧
    (∀ (s : SessionState) (code : Option Int), s.listenersActive = true →
      (step s (Event.ptyExit code)).writeQueue =
        s.writeQueue ++ [WriteEntry.flushCapture (if s.timedOut = true then none else code)
          (s.signalAborted && !s.dismissedByUser && !s.timedOut)]) ∧
    (∀ (s : SessionState) (code : Option Int), s.listenersActive = true →
      s.timedOut = true ∨ s.dismissedByUser = true →
      ∃ ec, (step s (Event.ptyExit code)).writeQueue =
        s.writeQueue ++ [WriteEntry.flushCapture ec false]) ∧
    (∀ (rows : Nat) (hasTimer : Bool) (evs : List Event), Event.abortFire ∉ evs →
      ∀ r ∈ (run (initState rows hasTimer) evs).results, r.abortedBySignal = false) := by
  refine ⟨?_, ?_, ?_, ?_⟩
  · intro r
    constructor
    · intro h
      by_contra hb
      have hf : r.abortedBySignal = false := by simpa using hb
      simp [executeOutcome, hf] at h
    · intro h
      simp [executeOutcome, h]
  · intro s code hl
    by_cases ht : s.timedOut <;> simp [step, setComplete, hl, ht]
  · intro s code hl hor
    rcases hor with ht | hd
    · refine ⟨none, ?_⟩
      simp [step, setComplete, hl, ht]
    · by_cases ht : s.timedOut
      · refine ⟨none, ?_⟩
        simp [step, setComplete, hl, ht]
      · refine ⟨code, ?_⟩
        simp [step, setComplete, hl, ht, hd]
  · intro rows hasTimer evs hno r hr
    have hinit : NoAbortInv (initState rows hasTimer) := by
      refine ⟨rfl, ?_, ?_⟩
      · intro ec ab hmem
        simp [initState, preSpawnState] at hmem
      · intro r2 hr2
        simp [initState, preSpawnState] at hr2
    exact ((noAbortInv_run evs hno _ hinit).2.2) r hr

theorem c5_abort_surfaces_iff_flag_witness :
    executeOutcome
        { exitCode := none, scrollback := "", screenSnapshot := "", timedOut := false,
          dismissedByUser := false, scrollbackTruncated := false, abortedBySignal := true } =
      ToolOutcome.aborted ∧
    (step (initState 24 false) (Event.ptyExit (some 3))).writeQueue =
      (initState 24 false).writeQueue ++
        [WriteEntry.flushCapture (if (initState 24 false).timedOut = true then none else some 3)
          ((initState 24 false).signalAborted && !(initState 24 false).dismissedByUser &&
            !(initState 24 false).timedOut)] ∧
    (∃ ec, (step { initState 24 false with timedOut := true }
        (Event.ptyExit (some 3))).writeQueue =
      { initState 24 false with timedOut := true }.writeQueue ++
        [WriteEntry.flushCapture ec false]) ∧
    (∀ r ∈ (run (initState 24 false) [Event.ptyExit (some 0), Event.parseStep]).results,
      r.abortedBySignal = false) := by
  refine ⟨?_, ?_, ?_, ?_⟩
  · exact (c5_abort_surfaces_iff_flag.1 _).mpr rfl
  · exact c5_abort_surfaces_iff_flag.2.1 _ (some 3) rfl
  · exact c5_abort_surfaces_iff_flag.2.2.1 _ (some 3) rfl (Or.inl rfl)
  · exact c5_abort_surfaces_iff_flag.2.2.2 24 false _ (by decide)

/-- Claim C6: input routing of the overlay. While the state is `running`, an
escape keypress from a not-yet-dismissed session dismisses (sets
`dismissedByUser`, SIGKILLs the child) and is not forwarded; any other
keystroke is forwarded verbatim to the PTY write; once the state is not
`running`, every keystroke (escape included) is discarded. -/
theorem c6_input_routing (s : SessionState) (d : String) :
    (s.overlayState = OverlayState.running → isEscapeKey d = true →
      s.dismissedByUser = false → s.pty = true →
      step s (Event.key d) =
        { s with
          dismissedByUser := true, pty := false, kills := s.kills ++ ["SIGKILL"] }) ∧
    (s.overlayState = OverlayState.running → isEscapeKey d = false → s.pty = true →
      step s (Event.key d) = { s with ptyInput := s.ptyInput ++ d }) ∧
    (s.overlayState ≠ OverlayState.running → step s (Event.key d) = s) := by
  refine ⟨?_, ?_, ?_⟩
  · intro h1 h2 h3 h4
    simp [step, killPty, h1, h2, h3, h4]
  · intro h1 h2 h3
    simp [step, h1, h2, h3]
  · intro h1
    by_cases h2 : isEscapeKey d <;> simp [step, h1, h2]

theorem c6_input_routing_witness :
    step (initState 24 false) (Event.key "\x1b") =
      { initState 24 false with
        dismissedByUser := true, pty := false,
        kills := (initState 24 false).kills ++ ["SIGKILL"] } ∧
    step (initState 24 false) (Event.key "a") =
      { initState 24 false with ptyInput := (initState 24 false).ptyInput ++ "a" } ∧
    step (setComplete (initState 24 false) none false false) (Event.key "\x1b") =
      setComplete (initState 24 false) none false false := by
  refine ⟨?_, ?_, ?_⟩
  · exact (c6_input_routing (initState 24 false) "\x1b").1 rfl (by decide) rfl rfl
  · exact (c6_input_routing (initState 24 false) "a").2.1 rfl (by decide) rfl
  · exact (c6_input_routing (setComplete (initState 24 false) none false false) "\x1b").2.2
      (by decide)

/-- Draining a queue of data entries followed by the flush entry finalizes
with a result carrying the closure's exit code and abort flag and the
then-current `timedOut`/`dismissedByUser` flags. -/
theorem drain_finalize (ds : List String) (t : SessionState) (ec : Option Int) (ab : Bool)
    (hf : t.finished = false)
    (hq : t.writeQueue = List.map WriteEntry.data ds ++ [WriteEntry.flushCapture ec ab]) :
    ∃ r, (drainN (ds.length + 1) t).results = t.results ++ [r] ∧
      r.exitCode = ec ∧ r.timedOut = t.timedOut ∧ r.dismissedByUser = t.dismissedByUser ∧
      r.abortedBySignal = ab := by
  rw [drainN_add ds.length 1 t]
  rw [drain_data ds t [WriteEntry.flushCapture ec ab] hq]
  set t' : SessionState :=
    { t with buf := List.foldl feedStr t.buf ds, writeQueue := [WriteEntry.flushCapture ec ab] }
    with ht'
  have hd1 : drainN 1 t' = step t' Event.parseStep := rfl
  rw [hd1, step_parse_capture t' ec ab rfl hf]
  exact ⟨_, rfl, rfl, rfl, rfl, rfl⟩

/-- Claim C3: when finalize is triggered by the timeout timer firing, the
produced result has `exitCode = null` and `timedOut = true`, whatever exit
code the killed child later reports in the PTY exit event. -/
theorem c3_timeout_forces_null_exit (s : SessionState) (code : Option Int) (ds : List String)
    (hf : s.finished = false) (hl : s.listenersActive = true) (ht : s.timerActive = true)
    (hq : s.writeQueue = List.map WriteEntry.data ds) :
    ∃ r, (drainN (ds.length + 1)
        (run s [Event.timerFire, Event.ptyExit code])).results = s.results ++ [r] ∧
      r.exitCode = none ∧ r.timedOut = true := by
  have h1 : (step s Event.timerFire).finished = false ∧
      (step s Event.timerFire).listenersActive = true ∧
      (step s Event.timerFire).timedOut = true ∧
      (step s Event.timerFire).writeQueue = List.map WriteEntry.data ds ∧
      (step s Event.timerFire).results = s.results := by
    by_cases hp : s.pty <;> simp [step, killPty, ht, hf, hp, hl, hq]
  set s1 := step s Event.timerFire with hs1
  obtain ⟨ha, hb, hc, hd, he⟩ := h1
  have h2 : (step s1 (Event.ptyExit code)).finished = false ∧
      (step s1 (Event.ptyExit code)).timedOut = true ∧
      (step s1 (Event.ptyExit code)).results = s.results ∧
      (step s1 (Event.ptyExit code)).writeQueue =
        List.map WriteEntry.data ds ++ [WriteEntry.flushCapture none false] := by
    simp [step, setComplete, ha, hb, hc, hd, he]
  have hrun : run s [Event.timerFire, Event.ptyExit code] = step s1 (Event.ptyExit code) := rfl
  rw [hrun]
  obtain ⟨r, hres, hrec, hrt, _, _⟩ :=
    drain_finalize ds (step s1 (Event.ptyExit code)) none false h2.1 h2.2.2.2
  exact ⟨r, by rw [hres, h2.2.2.1], hrec, by rw [hrt, h2.2.1]⟩

theorem c3_timeout_forces_null_exit_witness :
    ∃ r, (drainN 1 (run (initState 24 true) [Event.timerFire, Event.ptyExit (some 7)])).results =
        (initState 24 true).results ++ [r] ∧ r.exitCode = none ∧ r.timedOut = true :=
  c3_timeout_forces_null_exit (initState 24 true) (some 7) [] rfl rfl rfl rfl

/-- Claim C7: a running session dismissed by an escape keypress (no timeout
fired), whose SIGKILLed child then reports no exit code in the PTY exit
event, finalizes with `exitCode = null`, `dismissedByUser = true` and
`timedOut = false`. -/
theorem c7_dismiss_reports_null (s : SessionState) (ds : List String)
    (hf : s.finished = false) (hl : s.listenersActive = true)
    (hov : s.overlayState = OverlayState.running) (hdm : s.dismissedByUser = false)
    (hto : s.timedOut = false) (hp : s.pty = true)
    (hq : s.writeQueue = List.map WriteEntry.data ds) :
    ∃ r, (drainN (ds.length + 1)
        (run s [Event.key "\x1b", Event.ptyExit none])).results = s.results ++ [r] ∧
      r.exitCode = none ∧ r.dismissedByUser = true ∧ r.timedOut = false := by
  have h1 : step s (Event.key "\x1b") =
      { s with
        dismissedByUser := true, pty := false, kills := s.kills ++ ["SIGKILL"] } :=
    (c6_input_routing s "\x1b").1 hov (by decide) hdm hp
  set s1 := step s (Event.key "\x1b") with hs1
  have h2 : (step s1 (Event.ptyExit none)).finished = false ∧
      (step s1 (Event.ptyExit none)).timedOut = false ∧
      (step s1 (Event.ptyExit none)).dismissedByUser = true ∧
      (step s1 (Event.ptyExit none)).results = s.results ∧
      (step s1 (Event.ptyExit none)).writeQueue =
        List.map WriteEntry.data ds ++ [WriteEntry.flushCapture none false] := by
    rw [h1]
    simp [step, setComplete, hf, hl, hto, hq]
  have hrun : run s [Event.key "\x1b", Event.ptyExit none] = step s1 (Event.ptyExit none) := rfl
  rw [hrun]
  obtain ⟨r, hres, hrec, hrt, hrd, _⟩ :=
    drain_finalize ds (step s1 (Event.ptyExit none)) none false h2.1 h2.2.2.2.2
  exact ⟨r, by rw [hres, h2.2.2.2.1], hrec, by rw [hrd, h2.2.2.1], by rw [hrt, h2.2.1]⟩

theorem c7_dismiss_reports_null_witness :
    ∃ r, (drainN 1 (run (initState 24 false) [Event.key "\x1b", Event.ptyExit none])).results =
        (initState 24 false).results ++ [r] ∧
      r.exitCode = none ∧ r.dismissedByUser = true ∧ r.timedOut = false :=
  c7_dismiss_reports_null (initState 24 false) [] rfl rfl rfl rfl rfl rfl rfl

theorem step_results_unchanged (s : SessionState) (e : Event)
    (he : e ≠ Event.parseStep) : (step s e).results = s.results := by
  cases e with
  | ptyData c =>
    by_cases hl : s.listenersActive <;> simp [step, appendOutput, hl]
  | ptyExit code =>
    by_cases hl : s.listenersActive <;> simp [step, setComplete, hl]
  | timerFire =>
    by_cases ht : s.timerActive <;> by_cases hf : s.finished <;> by_cases hp : s.pty <;>
      simp [step, killPty, ht, hf, hp]
  | abortFire =>
    by_cases hl : s.listenersActive <;> by_cases ha : s.abortHandled <;>
      by_cases hf : s.finished <;> by_cases hp : s.pty <;>
      simp [step, killPty, hl, ha, hf, hp]
  | key d =>
    by_cases h1 : s.overlayState = OverlayState.running <;>
      by_cases h2 : isEscapeKey d <;>
      by_cases h3 : s.dismissedByUser <;>
      by_cases h4 : s.pty <;>
      simp [step, killPty, h1, h2, h3, h4]
  | parseStep => exact absurd rfl he

/-- Claim C2: capture happens only inside the flush barrier's callback — a
result can only be emitted by a parse step whose head queue entry is the
flush callback, so every data chunk queued before `flush` is parsed first;
consequently a chunk fed immediately before the exit notification appears in
both the captured scrollback and the screen snapshot. -/
theorem c2_capture_after_flush :
    (∀ (s : SessionState) (e : Event),
      s.results.length < (step s e).results.length →
      e = Event.parseStep ∧
        ∃ ec ab rest, s.writeQueue = WriteEntry.flushCapture ec ab :: rest) ∧
    (∀ (w : String) (rows : Nat) (hasTimer : Bool) (code : Option Int),
      w ≠ "" → rtrim w = w → '\n' ∉ w.data → byteLen w ≤ SCREEN_SNAPSHOT_MAX_BYTES →
      1 ≤ rows → rows ≤ 200 →
      ∃ res, (drainN 2 (run (initState rows hasTimer)
          [Event.ptyData (w ++ "\n"), Event.ptyExit code])).results = [res] ∧
        res.scrollback = w ∧ res.screenSnapshot = w) := by
  constructor
  · intro s e h
    by_cases he : e = Event.parseStep
    · subst he
      refine ⟨rfl, ?_⟩
      rcases hq : s.writeQueue with _ | ⟨entry, rest⟩
      · rw [show step s Event.parseStep = s by simp [step, hq]] at h
        exact absurd h (lt_irrefl _)
      · cases entry with
        | data c =>
          rw [show step s Event.parseStep =
            { s with buf := feedStr s.buf c, writeQueue := rest } by simp [step, hq]] at h
          exact absurd h (lt_irrefl _)
        | flushCapture ec ab => exact ⟨ec, ab, rest, rfl⟩
    · rw [step_results_unchanged s e he] at h
      exact absurd h (lt_irrefl _)
  · intro w rows hasTimer code hne hr hnl hbytes hr1 hr2
    have h01 : step (initState rows hasTimer) (Event.ptyData (w ++ "\n")) =
        { initState rows hasTimer with writeQueue := [WriteEntry.data (w ++ "\n")] } := by
      simp [step, initState, preSpawnState, appendOutput]
    have h12 : step { initState rows hasTimer with
          writeQueue := [WriteEntry.data (w ++ "\n")] } (Event.ptyExit code) =
        { initState rows hasTimer with
          writeQueue := [WriteEntry.data (w ++ "\n"), WriteEntry.flushCapture code false],
          overlayState := OverlayState.complete, overlayExitCode := code } := by
      simp [step, initState, preSpawnState, setComplete]
    have hrun : run (initState rows hasTimer)
        [Event.ptyData (w ++ "\n"), Event.ptyExit code] =
        { initState rows hasTimer with
          writeQueue := [WriteEntry.data (w ++ "\n"), WriteEntry.flushCapture code false],
          overlayState := OverlayState.complete, overlayExitCode := code } := by
      show step (step (initState rows hasTimer) (Event.ptyData (w ++ "\n")))
        (Event.ptyExit code) = _
      rw [h01, h12]
    rw [hrun]
    set t0 : SessionState :=
      { initState rows hasTimer with
        writeQueue := [WriteEntry.data (w ++ "\n"), WriteEntry.flushCapture code false],
        overlayState := OverlayState.complete, overlayExitCode := code } with ht0
    have hdrain1 : drainN 1 t0 =
        { t0 with
          buf := List.foldl feedStr t0.buf [w ++ "\n"],
          writeQueue := [WriteEntry.flushCapture code false] } :=
      drain_data [w ++ "\n"] t0 [WriteEntry.flushCapture code false] (by simp [ht0])
    have hbuf : List.foldl feedStr t0.buf [w ++ "\n"] =
        { rows := rows, cap := 2000, hist := [w], cur := "" } := by
      have hb0 : t0.buf = { rows := rows, cap := 2000, hist := [], cur := "" } := by
        simp [ht0, initState, preSpawnState]
      rw [List.foldl_cons, List.foldl_nil, hb0, feedStr_line _ _ hnl]
      rfl
    have hadd : drainN 2 t0 = drainN 1 (drainN 1 t0) := drainN_add 1 1 t0
    rw [hadd, hdrain1, hbuf]
    set t1 : SessionState :=
      { t0 with
        buf := { rows := rows, cap := 2000, hist := [w], cur := "" },
        writeQueue := [WriteEntry.flushCapture code false] } with ht1
    have hd1 : drainN 1 t1 = step t1 Event.parseStep := rfl
    rw [hd1, step_parse_capture t1 code false (by simp [ht1]) (by simp [ht1, initState, preSpawnState])]
    obtain ⟨hsb, hsnap, _⟩ := capture_single_line rows w hne hr hr2
    refine ⟨{
        exitCode := code,
        scrollback := truncateTailBytes (getScrollback t1.buf SCROLLBACK_MAX_LINES).text
          CAPTURE_MAX_BYTES,
        screenSnapshot := truncateTailLinesBytes (getSnapshot t1.buf SCREEN_SNAPSHOT_MAX_LINES)
          SCREEN_SNAPSHOT_MAX_LINES SCREEN_SNAPSHOT_MAX_BYTES,
        timedOut := t1.timedOut, dismissedByUser := t1.dismissedByUser,
        scrollbackTruncated := (getScrollback t1.buf SCROLLBACK_MAX_LINES).truncated,
        abortedBySignal := false }, ?_, ?_, ?_⟩
    · show t1.results ++ _ = _
      have hres0 : t1.results = [] := by simp [ht1, ht0, initState, preSpawnState]
      rw [hres0]
      simp
    · show truncateTailBytes (getScrollback t1.buf SCROLLBACK_MAX_LINES).text
        CAPTURE_MAX_BYTES = w
      have hb : t1.buf = { rows := rows, cap := 2000, hist := [w], cur := "" } := by
        simp [ht1]
      rw [hb, hsb]
      exact byteSuffix_of_le (le_trans hbytes (by decide))
    · show truncateTailLinesBytes (getSnapshot t1.buf SCREEN_SNAPSHOT_MAX_LINES)
        SCREEN_SNAPSHOT_MAX_LINES SCREEN_SNAPSHOT_MAX_BYTES = w
      have hb : t1.buf = { rows := rows, cap := 2000, hist := [w], cur := "" } := by
        simp [ht1]
      rw [hb, hsnap]
      unfold truncateTailLinesBytes
      rw [keepLastLines_of_le (by decide)
        (by rw [show countNl w = 0 from List.count_eq_zero.mpr hnl]; decide)]
      exact byteSuffix_of_le hbytes

theorem c2_capture_after_flush_witness :
    ∃ res, (drainN 2 (run (initState 24 false)
        [Event.ptyData ("hi" ++ "\n"), Event.ptyExit (some 0)])).results = [res] ∧
      res.scrollback = "hi" ∧ res.screenSnapshot = "hi" :=
  c2_capture_after_flush.2 "hi" 24 false (some 0) (by decide) (by decide) (by decide)
    (by decide) (by decide) (by decide)

/-- Claim C8: `scrollbackTruncated` is true iff the total number of buffer
lines produced exceeds 2000 (for a buffer with the source's 2000-row
scrollback and a viewport of at most 2000 rows); the snapshot is read from at
most the most recent 200 lines, and after the tail truncation it holds at
most 200 lines and at most 40KB. -/
theorem c8_truncation_bounds :
    (∀ b : TermBuf, b.cap = 2000 → 1 ≤ b.rows → b.rows ≤ 2000 →
      ((getScrollback b SCROLLBACK_MAX_LINES).truncated = true ↔
        2000 < (producedLines b).length)) ∧
    (∀ (b : TermBuf) (maxLines : Nat), (getPlainLines b maxLines).length ≤ maxLines) ∧
    (∀ s : String,
      lineCount (truncateTailLinesBytes s SCREEN_SNAPSHOT_MAX_LINES
        SCREEN_SNAPSHOT_MAX_BYTES) ≤ SCREEN_SNAPSHOT_MAX_LINES ∧
      byteLen (truncateTailLinesBytes s SCREEN_SNAPSHOT_MAX_LINES
        SCREEN_SNAPSHOT_MAX_BYTES) ≤ SCREEN_SNAPSHOT_MAX_BYTES) := by
  refine ⟨?_, ?_, ?_⟩
  · intro b hcap h1 h2
    have hlen : totalLines b =
        min (b.cap + b.rows)
          ((producedLines b).length + (b.rows - (producedLines b).length)) := by
      simp [totalLines, bufLines, takeLast_length]
    simp only [getScrollback, SCROLLBACK_MAX_LINES, decide_eq_true_eq]
    omega
  · intro b m
    by_cases hm : m = 0
    · simp [getPlainLines, hm]
    · simp only [getPlainLines, if_neg hm]
      have := takeLast_length m
        (trimBlankEnds (((bufLines b).drop (totalLines b - m)).map rtrim))
      rw [this]
      omega
  · intro s
    constructor
    · have hb1 := countNl_byteSuffix (keepLastLines s SCREEN_SNAPSHOT_MAX_LINES)
        SCREEN_SNAPSHOT_MAX_BYTES
      have hb2 := countNl_keepLastLines s SCREEN_SNAPSHOT_MAX_LINES (by decide)
      simp only [lineCount, truncateTailLinesBytes] at *
      simp only [SCREEN_SNAPSHOT_MAX_LINES] at *
      omega
    · exact byteLen_byteSuffix _ _

theorem c8_truncation_bounds_witness :
    ((getScrollback { rows := 24, cap := 2000, hist := List.replicate 2001 "x", cur := "" }
        SCROLLBACK_MAX_LINES).truncated = true) ∧
    (getPlainLines { rows := 5, cap := 2000, hist := ["a"], cur := "" } 200).length ≤ 200 ∧
    lineCount (truncateTailLinesBytes "a\nb" SCREEN_SNAPSHOT_MAX_LINES
      SCREEN_SNAPSHOT_MAX_BYTES) ≤ SCREEN_SNAPSHOT_MAX_LINES := by
  refine ⟨?_, ?_, ?_⟩
  · exact (c8_truncation_bounds.1
      { rows := 24, cap := 2000, hist := List.replicate 2001 "x", cur := "" }
      rfl (by decide) (by decide)).mpr
      (by simp only [producedLines, List.length_append, List.length_replicate,
        List.length_cons, List.length_nil]; omega)
  · exact c8_truncation_bounds.2.1 _ 200
  · exact (c8_truncation_bounds.2.2 "a\nb").1

/-- Claim C10: captured scrollback and snapshot strip leading and trailing
blank lines (the example buffer `["", "", "hello", "", ""]` yields
`"hello"` for both), and every captured line has its trailing whitespace
removed before joining. -/
theorem c10_blank_line_stripping :
    ((getScrollback { rows := 5, cap := 2000, hist := ["", "", "hello", ""], cur := "" }
        SCROLLBACK_MAX_LINES).text = "hello" ∧
      getSnapshot { rows := 5, cap := 2000, hist := ["", "", "hello", ""], cur := "" }
        SCREEN_SNAPSHOT_MAX_LINES = "hello") ∧
    (∀ (ls : List String) (x : String),
      (trimBlankEnds ls).head? = some x → blankLine x = false) ∧
    (∀ (ls : List String) (x : String),
      (trimBlankEnds ls).getLast? = some x → blankLine x = false) ∧
    (∀ (ls : List String) (l : String), l ∈ trimBlankEnds (ls.map rtrim) → rtrim l = l) := by
  refine ⟨⟨by decide, by decide⟩, ?_, ?_, ?_⟩
  · intro ls x h
    exact trimBlankEnds_head h
  · intro ls x h
    exact trimBlankEnds_last h
  · intro ls l hmem
    have hmem2 : l ∈ ls.map rtrim := (trimBlankEnds_sublist (ls.map rtrim)).subset hmem
    obtain ⟨y, _, rfl⟩ := List.mem_map.mp hmem2
    exact rtrim_idem y

theorem c10_blank_line_stripping_witness :
    blankLine "a" = false ∧ blankLine "b" = false ∧ rtrim "c" = "c" := by
  refine ⟨?_, ?_, ?_⟩
  · exact c10_blank_line_stripping.2.1 ["", "a"] "a" (by decide)
  · exact c10_blank_line_stripping.2.2.1 ["b", ""] "b" (by decide)
  · exact c10_blank_line_stripping.2.2.2 ["c"] "c" (by decide)

/-! ## Renderer lemmas -/

theorem renderLoop_zero_width {line : Option (List Cell)} {width x : Nat} {pk : String}
    {c : Cell} (hcell : getCellAt line x = some c) (hw : c.width = 0) (hx : x < width) :
    renderLoop line width x pk = renderLoop line width (x + 1) pk := by
  rw [renderLoop]
  simp [hx, hcell, hw]

theorem renderLoop_wide_overflow {line : Option (List Cell)} {width x : Nat} {pk : String}
    {c : Cell} (hcell : getCellAt line x = some c) (hw : c.width = 2) (hx : x < width)
    (hov : width < x + 2) :
    renderLoop line width x pk =
      (if pk = "d" then "" else "\x1b[0m") ++ " " ++ renderLoop line width (x + 1) "d" := by
  rw [renderLoop]
  simp only [dif_pos hx, hcell]
  rw [if_neg (by omega : ¬ c.width = 0), if_pos (by omega : width < x + c.width)]

theorem renderLoop_uniform (all : List Cell) (width : Nat) (k : String)
    (hall : ∀ c ∈ all, cellStyleKey c = k ∧ c.width = 1) (hlen : all.length = width) :
    ∀ (n x : Nat), width - x = n → x ≤ width →
      renderLoop (some all) width x k = concatStrs ((all.drop x).map displayChars) := by
  intro n
  induction n with
  | zero =>
    intro x hnx hxw
    have hx : x = width := by omega
    subst hx
    rw [renderLoop, dif_neg (lt_irrefl x)]
    rw [show all.drop x = [] from by rw [← hlen]; simp]
    rfl
  | succ m ih =>
    intro x hnx hxw
    have hx : x < width := by omega
    have hxlen : x < all.length := by omega
    have hcell : getCellAt (some all) x = some all[x] := by
      simp [getCellAt, List.get?_eq_getElem?, List.getElem?_eq_getElem hxlen]
    have hk := (hall all[x] (all.getElem_mem hxlen)).1
    have hw := (hall all[x] (all.getElem_mem hxlen)).2
    rw [renderLoop]
    simp only [dif_pos hx, hcell]
    rw [if_neg (by omega : ¬ all[x].width = 0),
      if_neg (by omega : ¬ width < x + all[x].width),
      if_pos hk, hk, hw]
    rw [ih (x + 1) (by omega) (by omega)]
    rw [List.drop_eq_getElem_cons hxlen, List.map_cons]
    rfl

/-- Claim C9: renderer row properties. (a) Every rendered row ends with a
style reset. (b) A zero-width cell is consumed without emitting anything or
advancing an output column — the loop just moves to the next buffer cell
with the same style state. (c) A width-2 cell that would overflow the
remaining row width is replaced by a single padding space (with a reset if a
style was open) rather than split. (d) A row of cells all sharing one
non-default style key emits exactly one style-change escape — the first
cell's SGR — followed by the plain cell characters and the terminating
reset, not one escape per cell. -/
theorem c9_renderer_row_properties :
    (∀ (line : Option (List Cell)) (width : Nat),
      ∃ t, renderBufferLineAnsi line width = t ++ "\x1b[0m") ∧
    (∀ (line : Option (List Cell)) (width x : Nat) (pk : String) (c : Cell),
      getCellAt line x = some c → c.width = 0 → x < width →
      renderLoop line width x pk = renderLoop line width (x + 1) pk) ∧
    (∀ (line : Option (List Cell)) (width x : Nat) (pk : String) (c : Cell),
      getCellAt line x = some c → c.width = 2 → x < width → width < x + 2 →
      renderLoop line width x pk =
        (if pk = "d" then "" else "\x1b[0m") ++ " " ++ renderLoop line width (x + 1) "d") ∧
    (∀ (c : Cell) (rest : List Cell) (width : Nat) (k : String),
      k ≠ "d" → (∀ c2 ∈ c :: rest, cellStyleKey c2 = k ∧ c2.width = 1) →
      (c :: rest).length = width →
      renderBufferLineAnsi (some (c :: rest)) width =
        "\x1b[0m" ++ (cellSgr c ++ concatStrs ((c :: rest).map displayChars)) ++ "\x1b[0m") := by
  refine ⟨?_, ?_, ?_, ?_⟩
  · intro line width
    exact ⟨"\x1b[0m" ++ renderLoop line width 0 "d", rfl⟩
  · intro line width x pk c hcell hw hx
    exact renderLoop_zero_width hcell hw hx
  · intro line width x pk c hcell hw hx hov
    exact renderLoop_wide_overflow hcell hw hx hov
  · intro c rest width k hk hall hlen
    have hw1 : 1 ≤ width := by
      rw [← hlen]
      simp
    have hcell0 : getCellAt (some (c :: rest)) 0 = some c := rfl
    have hkc := (hall c (List.mem_cons_self c rest)).1
    have hwc := (hall c (List.mem_cons_self c rest)).2
    unfold renderBufferLineAnsi
    rw [renderLoop]
    simp only [dif_pos (by omega : 0 < width), hcell0]
    rw [if_neg (by omega : ¬ c.width = 0),
      if_neg (by omega : ¬ width < 0 + c.width),
      if_neg (by rw [hkc]; exact hk), hkc, hwc]
    rw [renderLoop_uniform (c :: rest) width k hall hlen (width - 1) (0 + 1)
      (by omega) (by omega)]
    rw [show (c :: rest).drop (0 + 1) = rest from rfl, List.map_cons]
    simp [concatStrs, String.append_assoc]

theorem c9_renderer_row_properties_witness :
    (∃ t, renderBufferLineAnsi none 2 = t ++ "\x1b[0m") ∧
    (renderLoop (some [zeroWidthCellEx]) 1 0 "d" =
      renderLoop (some [zeroWidthCellEx]) 1 (0 + 1) "d") ∧
    (renderLoop (some [wideCellEx]) 1 0 "d" =
      (if "d" = "d" then "" else "\x1b[0m") ++ " " ++
        renderLoop (some [wideCellEx]) 1 (0 + 1) "d") ∧
    (renderBufferLineAnsi (some [styledCellEx]) 1 =
      "\x1b[0m" ++ (cellSgr styledCellEx ++
        concatStrs ([styledCellEx].map displayChars)) ++ "\x1b[0m") := by
  refine ⟨c9_renderer_row_properties.1 none 2, ?_, ?_, ?_⟩
  · exact c9_renderer_row_properties.2.1 _ 1 0 "d" zeroWidthCellEx rfl rfl (by decide)
  · exact c9_renderer_row_properties.2.2.1 _ 1 0 "d" wideCellEx rfl rfl (by decide) (by decide)
  · exact c9_renderer_row_properties.2.2.2 styledCellEx [] 1 (cellStyleKey styledCellEx)
      (by decide) (by intro c2 h2; simp at h2; subst h2; exact ⟨rfl, rfl⟩) rfl

end OhMyPi
